import Mathlib

/-
  Verification of the ray-tracing core (Vec3, Ray, Interval, HitRecord,
  Sphere, HittableList, Camera, color conversion) against its design
  specification.  The C++ sources are shallowly embedded: doubles become
  real numbers (with extended reals for interval endpoints, since the
  program stores plus or minus infinity in Interval bounds), the mutable
  HitRecord out-parameter becomes explicit state passing, and the virtual
  Hittable::hit dispatch becomes a function argument.
-/

set_option maxHeartbeats 1000000

namespace RT

noncomputable section

open Classical

/-- C style conversion from double to int: truncation toward zero. -/
def truncInt (x : ℝ) : ℤ := if x < 0 then ⌈x⌉ else ⌊x⌋

/-- 3-dimensional vector with components x, y, z (src/src/Vec3.h, class Vec3). -/
@[ext]
structure Vec3 where
  x : ℝ
  y : ℝ
  z : ℝ

instance : Zero Vec3 := ⟨⟨0, 0, 0⟩⟩

/-- Unary negation (Vec3::operator-). -/
instance : Neg Vec3 := ⟨fun v => ⟨-v.x, -v.y, -v.z⟩⟩

/-- Component-wise sum (operator+ on Vec3). -/
instance : Add Vec3 := ⟨fun u v => ⟨u.x + v.x, u.y + v.y, u.z + v.z⟩⟩

/-- Component-wise difference (operator- on Vec3). -/
instance : Sub Vec3 := ⟨fun u v => ⟨u.x - v.x, u.y - v.y, u.z - v.z⟩⟩

/-- Component-wise product (operator* on two Vec3). -/
instance : Mul Vec3 := ⟨fun u v => ⟨u.x * v.x, u.y * v.y, u.z * v.z⟩⟩

/-- Scalar times vector (operator*(double, Vec3)). -/
instance : HMul ℝ Vec3 Vec3 := ⟨fun t v => ⟨t * v.x, t * v.y, t * v.z⟩⟩

/-- Vector times scalar, defined in the source as t * v. -/
instance : HMul Vec3 ℝ Vec3 := ⟨fun v t => ⟨t * v.x, t * v.y, t * v.z⟩⟩

/-- Vector divided by scalar, defined in the source as (1/t) * v. -/
instance : HDiv Vec3 ℝ Vec3 := ⟨fun v t => ⟨(1 / t) * v.x, (1 / t) * v.y, (1 / t) * v.z⟩⟩

/-- Dot product of two vectors (src/src/Vec3.h, dot). -/
def dot (u v : Vec3) : ℝ := u.x * v.x + u.y * v.y + u.z * v.z

/-- Squared length of a vector (Vec3::length_squared). -/
def Vec3.length_squared (v : Vec3) : ℝ := v.x * v.x + v.y * v.y + v.z * v.z

/-- Length of a vector (Vec3::length). -/
def Vec3.length (v : Vec3) : ℝ := Real.sqrt v.length_squared

/-- Unit vector in the direction of v (src/src/Vec3.h, unit_vector): v / v.length(). -/
def unit_vector (v : Vec3) : Vec3 := v / v.length

/-- A ray with an origin and a (not necessarily unit) direction (src/src/Ray.h). -/
structure Ray where
  origin : Vec3
  direction : Vec3

/-- Point along the ray at parameter t (Ray::at): origin + direction * t. -/
def Ray.at (r : Ray) (t : ℝ) : Vec3 := r.origin + r.direction * t

/-- Modelled from the spec: the constant `infinity` is defined in RTWeekend.h, which is
not among the provided sources; the spec describes interval bounds of plus or minus
infinity, modelled as the top element of the extended reals. -/
def infinity : EReal := ⊤

/-- A closed interval of the real line whose endpoints may be infinite
(src/src/Interval.h).  The program stores doubles, including plus and minus
infinity, so the endpoints are modelled as extended reals. -/
structure Interval where
  min : EReal
  max : EReal

/-- Inclusive containment (Interval::contains): min <= x && x <= max. -/
def Interval.contains (i : Interval) (x : ℝ) : Prop :=
  i.min ≤ (x : EReal) ∧ (x : EReal) ≤ i.max

/-- Strict containment (Interval::surrounds): min < x && x < max. -/
def Interval.surrounds (i : Interval) (x : ℝ) : Prop :=
  i.min < (x : EReal) ∧ (x : EReal) < i.max

/-- Saturating clamp (Interval::clamp): if (x < min) return min; if (x > max)
return max; return x.  The program only ever calls clamp on finite intervals,
where EReal.toReal is the identity on the endpoints. -/
def Interval.clamp (i : Interval) (x : ℝ) : ℝ :=
  if (x : EReal) < i.min then i.min.toReal
  else if i.max < (x : EReal) then i.max.toReal
  else x

/-- The empty interval constant (Interval::empty). -/
def Interval.emptyI : Interval := ⟨infinity, -infinity⟩

/-- The universal interval constant (Interval::universe). -/
def Interval.universe : Interval := ⟨-infinity, infinity⟩

/-- Record of a ray-surface intersection (src/src/Hittable.h, class HitRecord). -/
structure HitRecord where
  p : Vec3
  normal : Vec3
  t : ℝ
  front_face : Bool

/-- HitRecord::set_face_normal: front_face = dot(ray.direction(), outward_normal) < 0;
normal = front_face ? outward_normal : -outward_normal. -/
def HitRecord.set_face_normal (rec : HitRecord) (ray : Ray) (outward_normal : Vec3) :
    HitRecord :=
  if dot ray.direction outward_normal < 0 then
    { rec with normal := outward_normal, front_face := true }
  else
    { rec with normal := -outward_normal, front_face := false }

/-- A sphere with a center and radius (src/src/Sphere.h). -/
structure Sphere where
  center : Vec3
  radius : ℝ

/-- The Sphere constructor clamps the radius to fmax(0, radius). -/
def Sphere.make (center : Vec3) (radius : ℝ) : Sphere := ⟨center, Max.max 0 radius⟩

/-- Vector from ray origin to sphere center (local oc in Sphere::hit). -/
def Sphere.oc (s : Sphere) (ray : Ray) : Vec3 := s.center - ray.origin

/-- Local a in Sphere::hit: ray.direction().length_squared(). -/
def Sphere.qa (_s : Sphere) (ray : Ray) : ℝ := ray.direction.length_squared

/-- Local h in Sphere::hit: dot(ray.direction(), oc). -/
def Sphere.qh (s : Sphere) (ray : Ray) : ℝ := dot ray.direction (s.oc ray)

/-- Local c in Sphere::hit: oc.length_squared() - radius * radius. -/
def Sphere.qc (s : Sphere) (ray : Ray) : ℝ := (s.oc ray).length_squared - s.radius * s.radius

/-- Local discriminant in Sphere::hit: h * h - a * c. -/
def Sphere.discriminant (s : Sphere) (ray : Ray) : ℝ :=
  s.qh ray * s.qh ray - s.qa ray * s.qc ray

/-- Local sqrtd in Sphere::hit: std::sqrt(discriminant). -/
def Sphere.sqrtd (s : Sphere) (ray : Ray) : ℝ := Real.sqrt (s.discriminant ray)

/-- The first candidate root in Sphere::hit: (h - sqrtd) / a. -/
def Sphere.root1 (s : Sphere) (ray : Ray) : ℝ := (s.qh ray - s.sqrtd ray) / s.qa ray

/-- The second candidate root in Sphere::hit: (h + sqrtd) / a. -/
def Sphere.root2 (s : Sphere) (ray : Ray) : ℝ := (s.qh ray + s.sqrtd ray) / s.qa ray

/-- The writes performed by Sphere::hit on acceptance of a root: rec.t = root;
rec.p = ray.at(rec.t); outward_normal = (rec.p - center) / radius;
rec.set_face_normal(ray, outward_normal). -/
def Sphere.acceptRec (s : Sphere) (ray : Ray) (rec : HitRecord) (root : ℝ) : HitRecord :=
  let rec1 : HitRecord := { rec with t := root, p := ray.at root }
  let outward_normal := (rec1.p - s.center) / s.radius
  rec1.set_face_normal ray outward_normal

/-- Sphere::hit soul: reject a negative discriminant, then accept the first of
root1, root2 that the interval strictly surrounds, else report no hit.  The
mutable out-parameter rec is modelled by returning the (possibly updated)
record next to the boolean result. -/
def Sphere.hit (s : Sphere) (ray : Ray) (interval : Interval) (rec : HitRecord) :
    Bool × HitRecord :=
  if s.discriminant ray < 0 then (false, rec)
  else if interval.surrounds (s.root1 ray) then (true, s.acceptRec ray rec (s.root1 ray))
  else if interval.surrounds (s.root2 ray) then (true, s.acceptRec ray rec (s.root2 ray))
  else (false, rec)

/-- A scene as an ordered collection of spheres (src/src/HittableList.h; the
program's only concrete surface type is Sphere). -/
structure HittableList where
  objects : List Sphere

/-- Modelled from the spec: the body of HittableList::hit in
src/src/HittableList.h is a stub placeholder ("Stub: Implementation of hit
logic for checking intersections with all objects in the list.").  Per the
spec, the list iterates all member surfaces, tracking the closest accepted hit
so far, and after each successful surface query narrows the search interval
upper bound to the newly found t so subsequent surfaces cannot report a
farther hit.  The fold state is (hit_anything, closest_so_far, record); this
is the body of the loop, processing one member surface. -/
def HittableList.hitState (ray : Ray) (interval : Interval)
    (acc : Bool × EReal × HitRecord) (s : Sphere) : Bool × EReal × HitRecord :=
  let res := s.hit ray ⟨interval.min, acc.2.1⟩ acc.2.2
  if res.1 then (true, ((res.2.t : ℝ) : EReal), res.2) else acc

/-- Modelled from the spec: HittableList::hit iterates all member surfaces
with the narrowing loop body above, starting from no hit, the full interval
upper bound, and the incoming record. -/
def HittableList.hit (l : HittableList) (ray : Ray) (interval : Interval)
    (rec : HitRecord) : Bool × HitRecord :=
  let final := l.objects.foldl (HittableList.hitState ray interval)
    (false, interval.max, rec)
  (final.1, final.2.2)

/-- Loop invariant of the spec-modelled HittableList::hit fold relative to the
original query interval and incoming record: when no hit has been found the
state is untouched and every processed member fails individually; when a hit
has been found the state holds the record of some processed member whose t is
minimal among all processed members that hit, and the tracked upper bound is
exactly that t. -/
def ListInv (ray : Ray) (i : Interval) (rec : HitRecord) (l : List Sphere)
    (st : Bool × EReal × HitRecord) : Prop :=
  (st.1 = false → st.2.1 = i.max ∧ st.2.2 = rec
      ∧ ∀ s ∈ l, (s.hit ray i rec).1 = false)
  ∧ (st.1 = true →
      st.2.1 = ((st.2.2.t : ℝ) : EReal) ∧ st.2.1 ≤ i.max
      ∧ (∃ s ∈ l, (s.hit ray i rec).1 = true ∧ st.2.2 = (s.hit ray i rec).2)
      ∧ ∀ s ∈ l, (s.hit ray i rec).1 = true → st.2.2.t ≤ (s.hit ray i rec).2.t)

/-- The clamp interval of write_color (src/src/Color.h): Interval(0.000, 0.999). -/
def colorInterval : Interval := ⟨((0 : ℝ) : EReal), ((0.999 : ℝ) : EReal)⟩

/-- One output channel of write_color: int(256 * colorInterval.clamp(x)). -/
def byteOf (x : ℝ) : ℤ := truncInt (256 * colorInterval.clamp x)

/-- The line emitted by write_color for one pixel: the three channel bytes in
decimal, space separated (the terminating newline ends the line). -/
def write_color (pixel_color : Vec3) : String :=
  toString (byteOf pixel_color.x) ++ " " ++ toString (byteOf pixel_color.y)
    ++ " " ++ toString (byteOf pixel_color.z)

/-- The scene as seen by the camera: the virtual Hittable::hit entry point,
modelled as a function from ray, interval and incoming record to the boolean
result and the (possibly updated) record. -/
abbrev World : Type := Ray → Interval → HitRecord → Bool × HitRecord

/-- The local HitRecord rec declared in Camera::ray_color.  Its Vec3 members
are default constructed to (0,0,0); t and front_face are indeterminate in C++
and never read before being set, so they are modelled as 0 and false. -/
def HitRecord.init : HitRecord := ⟨⟨0, 0, 0⟩, ⟨0, 0, 0⟩, 0, false⟩

/-- Camera configuration (src/src/Camera.h public fields). -/
structure Camera where
  aspect_ratio : ℝ
  image_width : ℤ
  samples_per_pixel : ℤ

/-- The in-class member initializers of Camera: aspect_ratio = 1.0,
image_width = 100, samples_per_pixel = 10. -/
def Camera.defaultConfig : Camera := ⟨1.0, 100, 10⟩

/-- Camera::initialize: image_height = int(image_width / aspect_ratio), then
floored to 1 when below 1. -/
def Camera.image_height (cfg : Camera) : ℤ :=
  let h := truncInt ((cfg.image_width : ℝ) / cfg.aspect_ratio)
  if h < 1 then 1 else h

/-- Camera::initialize: pixel_samples_scale = 1.0 / samples_per_pixel. -/
def Camera.pixel_samples_scale (cfg : Camera) : ℝ :=
  1.0 / (cfg.samples_per_pixel : ℝ)

/-- Camera::initialize: center = Point3(0, 0, 0). -/
def Camera.center (_cfg : Camera) : Vec3 := ⟨0, 0, 0⟩

/-- Camera::initialize: viewport_width = viewport_height * (double(image_width)
/ image_height) with viewport_height = 2.0. -/
def Camera.viewport_width (cfg : Camera) : ℝ :=
  2.0 * ((cfg.image_width : ℝ) / (cfg.image_height : ℝ))

/-- Camera::initialize: viewport_u = Vec3(viewport_width, 0, 0). -/
def Camera.viewport_u (cfg : Camera) : Vec3 := ⟨cfg.viewport_width, 0, 0⟩

/-- Camera::initialize: viewport_v = Vec3(0, -viewport_height, 0). -/
def Camera.viewport_v (_cfg : Camera) : Vec3 := ⟨0, -2.0, 0⟩

/-- Camera::initialize: pixel_delta_u = viewport_u / image_width. -/
def Camera.pixel_delta_u (cfg : Camera) : Vec3 :=
  cfg.viewport_u / (cfg.image_width : ℝ)

/-- Camera::initialize: pixel_delta_v = viewport_v / image_height. -/
def Camera.pixel_delta_v (cfg : Camera) : Vec3 :=
  cfg.viewport_v / (cfg.image_height : ℝ)

/-- Camera::initialize: viewport_upper_left = center - Vec3(0,0,focal_length)
- viewport_u/2 - viewport_v/2 with focal_length = 1.0. -/
def Camera.viewport_upper_left (cfg : Camera) : Vec3 :=
  cfg.center - (⟨0, 0, 1.0⟩ : Vec3) - cfg.viewport_u / (2 : ℝ) - cfg.viewport_v / (2 : ℝ)

/-- Camera::initialize: pixel00_loc = viewport_upper_left
+ 0.5 * (pixel_delta_u + pixel_delta_v). -/
def Camera.pixel00_loc (cfg : Camera) : Vec3 :=
  cfg.viewport_upper_left + (0.5 : ℝ) * (cfg.pixel_delta_u + cfg.pixel_delta_v)

/-- Modelled from the spec: random_double() comes from RTWeekend.h, which is
not among the provided sources; the spec describes a per-sample jitter drawn
uniformly per axis.  The two raw random values of one sample_square call are
abstracted as an explicit pair. -/
def Camera.sample_square (rnd : ℝ × ℝ) : Vec3 := ⟨rnd.1 - 0.5, rnd.2 - 0.5, 0⟩

/-- Camera::get_ray(i, j) for a given pair of raw random values: ray from the
camera center through a jittered point around pixel (i, j). -/
def Camera.get_ray (cfg : Camera) (i j : ℤ) (rnd : ℝ × ℝ) : Ray :=
  let offset := Camera.sample_square rnd
  let pixel_sample := cfg.pixel00_loc
    + ((i : ℝ) + offset.x) * cfg.pixel_delta_u
    + ((j : ℝ) + offset.y) * cfg.pixel_delta_v
  let ray_origin := cfg.center
  let ray_direction := pixel_sample - ray_origin
  ⟨ray_origin, ray_direction⟩

/-- Camera::ray_color: query the world over Interval(0, infinity); on a hit
return 0.5 * (rec.normal + Color(1,1,1)); otherwise blend the background
gradient from the normalized ray direction. -/
def Camera.ray_color (world : World) (ray : Ray) : Vec3 :=
  let res := world ray ⟨((0 : ℝ) : EReal), infinity⟩ HitRecord.init
  if res.1 then (0.5 : ℝ) * (res.2.normal + (⟨1, 1, 1⟩ : Vec3))
  else
    let unit_direction := unit_vector ray.direction
    let a := 0.5 * (unit_direction.y + 1.0)
    (1.0 - a) * (⟨1.0, 1.0, 1.0⟩ : Vec3) + a * (⟨0.5, 0.7, 1.0⟩ : Vec3)

/-- Source of per-sample random pairs, indexed by row, column and sample
number (abstracting the implicit random_double stream). -/
abbrev Rng : Type := ℕ → ℕ → ℕ → ℝ × ℝ

/-- The sample accumulation loop of Camera::render for pixel (col, row):
starts from Color(0,0,0) and adds ray_color(get_ray(col, row), world) once per
sample; a nonpositive samples_per_pixel runs the loop zero times. -/
def Camera.pixel_color_sum (cfg : Camera) (world : World) (rng : Rng)
    (row col : ℕ) : Vec3 :=
  (List.range cfg.samples_per_pixel.toNat).foldl
    (fun acc sample =>
      acc + Camera.ray_color world (cfg.get_ray (col : ℤ) (row : ℤ) (rng row col sample)))
    ⟨0, 0, 0⟩

/-- The line Camera::render emits for pixel (col, row):
write_color(pixel_color * pixel_samples_scale). -/
def Camera.renderPixelLine (cfg : Camera) (world : World) (rng : Rng)
    (row col : ℕ) : String :=
  write_color (cfg.pixel_color_sum world rng row col * cfg.pixel_samples_scale)

/-- The full standard-output of Camera::render as a list of lines: the P3
header, the dimensions line, the 255 line, then one line per pixel produced by
the row-major double loop (row 0 first, column 0 first within a row). -/
def Camera.renderLines (cfg : Camera) (world : World) (rng : Rng) : List String :=
  ["P3", toString cfg.image_width ++ " " ++ toString cfg.image_height, "255"]
    ++ (List.range cfg.image_height.toNat).flatMap
      (fun row => (List.range cfg.image_width.toNat).map
        (fun col => cfg.renderPixelLine world rng row col))

/-- Concrete scene sphere: the world's first sphere in main.cpp has
center (0,0,-1) and radius 0.5. -/
def sphere0 : Sphere := ⟨⟨0, 0, -1⟩, 0.5⟩

/-- Sphere tangent to the z axis from above, used for tie analysis. -/
def sphereUpper : Sphere := ⟨⟨0, 1, -1⟩, 1⟩

/-- Sphere tangent to the z axis from below, used for tie analysis. -/
def sphereLower : Sphere := ⟨⟨0, -1, -1⟩, 1⟩

/-- A sphere the straight ray misses entirely. -/
def sphereFar : Sphere := ⟨⟨0, 0, -5⟩, 1⟩

/-- Ray from the origin straight along the negative z axis. -/
def rayStraight : Ray := ⟨⟨0, 0, 0⟩, ⟨0, 0, -1⟩⟩

/-- Ray from the origin straight up. -/
def rayUp : Ray := ⟨⟨0, 0, 0⟩, ⟨0, 1, 0⟩⟩

/-- The query interval (0, infinity) used by ray_color. -/
def ival0T : Interval := ⟨((0 : ℝ) : EReal), infinity⟩

/-- The record produced by sphereUpper on rayStraight: tangential hit at t = 1
with stored normal (0,1,0) and front_face false. -/
def recUpper : HitRecord := ⟨⟨0, 0, -1⟩, ⟨0, 1, 0⟩, 1, false⟩

/-- The record produced by sphereLower on rayStraight: tangential hit at t = 1
with stored normal (0,-1,0) and front_face false. -/
def recLower : HitRecord := ⟨⟨0, 0, -1⟩, ⟨0, -1, 0⟩, 1, false⟩

/-- A world that never reports a hit. -/
def worldNone : World := fun _ _ rec => (false, rec)

/-- Random source whose raw values are always (0.5, 0.5), making every jitter
offset zero. -/
def rngHalf : Rng := fun _ _ _ => (0.5, 0.5)

/-- 1x1 image configuration with samples_per_pixel = -1 (a nonpositive value). -/
def cfgNegSamples : Camera := ⟨1.0, 1, -1⟩

/-- 1x1 image configuration with samples_per_pixel = 1. -/
def cfgOneSample : Camera := ⟨1.0, 1, 1⟩

@[simp] theorem Vec3.zero_def : (0 : Vec3) = ⟨0, 0, 0⟩ := rfl

@[simp] theorem Vec3.neg_def (v : Vec3) : -v = ⟨-v.x, -v.y, -v.z⟩ := rfl

@[simp] theorem Vec3.add_def (u v : Vec3) : u + v = ⟨u.x + v.x, u.y + v.y, u.z + v.z⟩ := rfl

@[simp] theorem Vec3.sub_def (u v : Vec3) : u - v = ⟨u.x - v.x, u.y - v.y, u.z - v.z⟩ := rfl

@[simp] theorem Vec3.smul_def (t : ℝ) (v : Vec3) :
    t * v = (⟨t * v.x, t * v.y, t * v.z⟩ : Vec3) := rfl

@[simp] theorem Vec3.mulScalar_def (v : Vec3) (t : ℝ) :
    v * t = (⟨t * v.x, t * v.y, t * v.z⟩ : Vec3) := rfl

@[simp] theorem Vec3.divScalar_def (v : Vec3) (t : ℝ) :
    v / t = (⟨(1 / t) * v.x, (1 / t) * v.y, (1 / t) * v.z⟩ : Vec3) := rfl

theorem dot_neg_right (u v : Vec3) : dot u (-v) = -(dot u v) := by
  simp [dot]; ring

theorem Vec3.length_squared_nonneg (v : Vec3) : 0 ≤ v.length_squared := by
  unfold Vec3.length_squared
  nlinarith [mul_self_nonneg v.x, mul_self_nonneg v.y, mul_self_nonneg v.z]

theorem Vec3.length_squared_pos (v : Vec3) (h : v ≠ 0) : 0 < v.length_squared := by
  rcases (Vec3.length_squared_nonneg v).lt_or_eq with hlt | heq
  · exact hlt
  · exfalso
    apply h
    have hls : v.x * v.x + v.y * v.y + v.z * v.z = 0 := by
      simpa [Vec3.length_squared] using heq.symm
    have hx : v.x * v.x = 0 := le_antisymm
      (by nlinarith [mul_self_nonneg v.y, mul_self_nonneg v.z]) (mul_self_nonneg v.x)
    have hy : v.y * v.y = 0 := le_antisymm
      (by nlinarith [mul_self_nonneg v.x, mul_self_nonneg v.z]) (mul_self_nonneg v.y)
    have hz : v.z * v.z = 0 := le_antisymm
      (by nlinarith [mul_self_nonneg v.x, mul_self_nonneg v.y]) (mul_self_nonneg v.z)
    ext <;> simp [mul_self_eq_zero.mp hx, mul_self_eq_zero.mp hy, mul_self_eq_zero.mp hz]

theorem Interval.surrounds_def (lo hi : EReal) (x : ℝ) :
    (Interval.mk lo hi).surrounds x ↔ lo < (x : EReal) ∧ (x : EReal) < hi := Iff.rfl

theorem Interval.surrounds_coe {lo hi x : ℝ} :
    (Interval.mk (lo : EReal) (hi : EReal)).surrounds x ↔ lo < x ∧ x < hi := by
  simp [Interval.surrounds, EReal.coe_lt_coe_iff]

theorem Interval.surrounds_coe_top {lo x : ℝ} :
    (Interval.mk (lo : EReal) ⊤).surrounds x ↔ lo < x := by
  simp [Interval.surrounds, EReal.coe_lt_coe_iff, EReal.coe_lt_top]

theorem colorInterval_clamp_eq (x : ℝ) :
    colorInterval.clamp x = if x < 0 then 0 else if 0.999 < x then 0.999 else x := by
  simp only [colorInterval, Interval.clamp, EReal.coe_lt_coe_iff, EReal.toReal_coe]

theorem truncInt_of_nonneg {x : ℝ} (h : 0 ≤ x) : truncInt x = ⌊x⌋ := if_neg (not_lt.2 h)

theorem colorInterval_clamp_mem (x : ℝ) :
    0 ≤ colorInterval.clamp x ∧ colorInterval.clamp x ≤ 0.999 := by
  rw [colorInterval_clamp_eq]
  split_ifs with h1 h2
  · norm_num
  · norm_num
  · exact ⟨not_lt.1 h1, not_lt.1 h2⟩

theorem byteOf_range (x : ℝ) : 0 ≤ byteOf x ∧ byteOf x ≤ 255 := by
  obtain ⟨h0, h1⟩ := colorInterval_clamp_mem x
  have hnn : (0 : ℝ) ≤ 256 * colorInterval.clamp x := by linarith
  rw [byteOf, truncInt_of_nonneg hnn]
  constructor
  · exact Int.le_floor.2 (by exact_mod_cast hnn)
  · have hfl : ⌊256 * colorInterval.clamp x⌋ < (256 : ℤ) :=
      Int.floor_lt.2 (by push_cast; linarith)
    omega

/-- C6: write_color emits the byte int(256 * clamp(x, 0.0, 0.999)) for each channel;
the byte always lies in [0, 255] (a channel of exactly 1.0 does not overflow to
256), and the inputs -0.1, 0.0, 0.5, 0.999, 1.0, 5.0 map to the bytes
0, 0, 128, 255, 255, 255 respectively. -/
theorem write_color_clamps :
    (∀ c : Vec3, write_color c
        = toString (byteOf c.x) ++ " " ++ toString (byteOf c.y)
          ++ " " ++ toString (byteOf c.z))
    ∧ (∀ x : ℝ, byteOf x = truncInt (256 * colorInterval.clamp x)
        ∧ 0 ≤ byteOf x ∧ byteOf x ≤ 255)
    ∧ byteOf (-0.1) = 0 ∧ byteOf 0 = 0 ∧ byteOf 0.5 = 128
    ∧ byteOf 0.999 = 255 ∧ byteOf 1.0 = 255 ∧ byteOf 5.0 = 255 := by
  refine ⟨fun c => rfl, fun x => ⟨rfl, byteOf_range x⟩, ?_, ?_, ?_, ?_, ?_, ?_⟩ <;>
    · rw [byteOf, colorInterval_clamp_eq]
      norm_num [truncInt]

/-- C8: Camera::initialize derives image_height = max(1, image_width / aspect_ratio),
where the division is the double division truncated to int and the result is
defensively floored to 1. -/
theorem camera_image_height_formula (cfg : Camera) (hw : 0 < cfg.image_width)
    (ha : 0 < cfg.aspect_ratio) :
    cfg.image_height = Max.max 1 (truncInt ((cfg.image_width : ℝ) / cfg.aspect_ratio)) := by
  simp only [Camera.image_height]
  rcases lt_or_le (truncInt ((cfg.image_width : ℝ) / cfg.aspect_ratio)) 1 with h | h
  · rw [if_pos h]
    exact (max_eq_left h.le).symm
  · rw [if_neg (not_lt.2 h)]
    exact (max_eq_right h).symm

/-- Witness for C8 at the default configuration. -/
theorem camera_image_height_formula_witness :
    0 < Camera.defaultConfig.image_width ∧ 0 < Camera.defaultConfig.aspect_ratio
    ∧ Camera.defaultConfig.image_height
      = Max.max 1 (truncInt ((Camera.defaultConfig.image_width : ℝ)
          / Camera.defaultConfig.aspect_ratio)) :=
  ⟨by norm_num [Camera.defaultConfig], by norm_num [Camera.defaultConfig],
    camera_image_height_formula Camera.defaultConfig
      (by norm_num [Camera.defaultConfig]) (by norm_num [Camera.defaultConfig])⟩

/-- C4: after set_face_normal, front_face is true iff dot(ray.direction,
outward_normal) < 0; the stored normal equals the outward normal when front_face
and its negation otherwise; consequently dot(ray.direction, normal) <= 0,
including the boundary case dot = 0. -/
theorem set_face_normal_spec (rec : HitRecord) (ray : Ray) (outward_normal : Vec3)
    (hu : outward_normal.length = 1) :
    ((rec.set_face_normal ray outward_normal).front_face = true
        ↔ dot ray.direction outward_normal < 0)
    ∧ ((rec.set_face_normal ray outward_normal).front_face = true →
        (rec.set_face_normal ray outward_normal).normal = outward_normal)
    ∧ ((rec.set_face_normal ray outward_normal).front_face = false →
        (rec.set_face_normal ray outward_normal).normal = -outward_normal)
    ∧ dot ray.direction (rec.set_face_normal ray outward_normal).normal ≤ 0 := by
  unfold HitRecord.set_face_normal
  split_ifs with h
  · exact ⟨by simp [h], fun _ => rfl, by simp, h.le⟩
  · push_neg at h
    refine ⟨by simp [h.not_lt], by simp, fun _ => rfl, ?_⟩
    rw [show ({ rec with normal := -outward_normal, front_face := false } : HitRecord).normal
        = -outward_normal from rfl, dot_neg_right]
    exact neg_nonpos.2 h

/-- Witness for C4 on the straight ray and the unit normal (0,0,1). -/
theorem set_face_normal_spec_witness :
    (⟨0, 0, 1⟩ : Vec3).length = 1
    ∧ (((HitRecord.init.set_face_normal rayStraight ⟨0, 0, 1⟩).front_face = true
        ↔ dot rayStraight.direction ⟨0, 0, 1⟩ < 0)
      ∧ ((HitRecord.init.set_face_normal rayStraight ⟨0, 0, 1⟩).front_face = true →
          (HitRecord.init.set_face_normal rayStraight ⟨0, 0, 1⟩).normal = ⟨0, 0, 1⟩)
      ∧ ((HitRecord.init.set_face_normal rayStraight ⟨0, 0, 1⟩).front_face = false →
          (HitRecord.init.set_face_normal rayStraight ⟨0, 0, 1⟩).normal = -(⟨0, 0, 1⟩ : Vec3))
      ∧ dot rayStraight.direction
          (HitRecord.init.set_face_normal rayStraight ⟨0, 0, 1⟩).normal ≤ 0) := by
  have hu : (⟨0, 0, 1⟩ : Vec3).length = 1 := by
    rw [Vec3.length, Vec3.length_squared]
    norm_num
  exact ⟨hu, set_face_normal_spec HitRecord.init rayStraight ⟨0, 0, 1⟩ hu⟩

/-- C10: when Sphere::hit reports no intersection, the hit record is left
completely unchanged. -/
theorem sphere_hit_miss_frame (s : Sphere) (ray : Ray) (i : Interval) (rec : HitRecord)
    (h : (s.hit ray i rec).1 = false) : (s.hit ray i rec).2 = rec := by
  unfold Sphere.hit at h ⊢
  split_ifs at h ⊢ <;> simp_all

theorem sphereFar_miss : sphereFar.hit rayUp ival0T HitRecord.init = (false, HitRecord.init) := by
  have hdisc : sphereFar.discriminant rayUp < 0 := by
    norm_num [Sphere.discriminant, Sphere.qa, Sphere.qh, Sphere.qc, Sphere.oc, dot,
      Vec3.length_squared, sphereFar, rayUp]
  unfold Sphere.hit
  rw [if_pos hdisc]

/-- Witness for C10 on a sphere the upward ray misses. -/
theorem sphere_hit_miss_frame_witness :
    (sphereFar.hit rayUp ival0T HitRecord.init).1 = false
    ∧ (sphereFar.hit rayUp ival0T HitRecord.init).2 = HitRecord.init := by
  have h1 : (sphereFar.hit rayUp ival0T HitRecord.init).1 = false := by rw [sphereFar_miss]
  exact ⟨h1, sphere_hit_miss_frame _ _ _ _ h1⟩

theorem Vec3.length_squared_neg (v : Vec3) : (-v).length_squared = v.length_squared := by
  simp [Vec3.length_squared]

theorem Vec3.length_squared_div (v : Vec3) (t : ℝ) :
    (v / t).length_squared = (1 / t) * (1 / t) * v.length_squared := by
  simp [Vec3.length_squared]
  ring

theorem Sphere.qa_pos (s : Sphere) (ray : Ray) (hd : ray.direction ≠ 0) : 0 < s.qa ray := by
  simpa [Sphere.qa] using Vec3.length_squared_pos ray.direction hd

theorem Sphere.root1_le_root2 (s : Sphere) (ray : Ray) (hd : ray.direction ≠ 0) :
    s.root1 ray ≤ s.root2 ray := by
  have ha := s.qa_pos ray hd
  have hs : 0 ≤ s.sqrtd ray := Real.sqrt_nonneg _
  unfold Sphere.root1 Sphere.root2
  exact div_le_div_of_nonneg_right (by linarith) ha.le

theorem Sphere.root_eq (s : Sphere) (ray : Ray) (hd : ray.direction ≠ 0)
    (hdisc : 0 ≤ s.discriminant ray) {r : ℝ}
    (hr : r = s.root1 ray ∨ r = s.root2 ray) :
    s.qa ray * (r * r) - 2 * s.qh ray * r + s.qc ray = 0 := by
  have ha : s.qa ray ≠ 0 := (s.qa_pos ray hd).ne'
  have he : s.sqrtd ray * s.sqrtd ray = s.discriminant ray := Real.mul_self_sqrt hdisc
  have hd2 : s.discriminant ray = s.qh ray * s.qh ray - s.qa ray * s.qc ray := rfl
  have key : s.qa ray * (s.qa ray * (r * r) - 2 * s.qh ray * r + s.qc ray) = 0 := by
    rcases hr with hr | hr
    · have hqar : s.qa ray * r = s.qh ray - s.sqrtd ray := by
        rw [hr, Sphere.root1, mul_div_cancel₀ _ ha]
      linear_combination (s.qa ray * r - s.qh ray - s.sqrtd ray) * hqar + he + hd2
    · have hqar : s.qa ray * r = s.qh ray + s.sqrtd ray := by
        rw [hr, Sphere.root2, mul_div_cancel₀ _ ha]
      linear_combination (s.qa ray * r - s.qh ray + s.sqrtd ray) * hqar + he + hd2
  exact (mul_eq_zero.mp key).resolve_left ha

theorem at_sub_center_sq (s : Sphere) (ray : Ray) (r : ℝ) :
    ((ray.at r) - s.center).length_squared
      = s.qa ray * (r * r) - 2 * s.qh ray * r + (s.oc ray).length_squared := by
  simp [Ray.at, Sphere.qa, Sphere.qh, Sphere.oc, dot, Vec3.length_squared]
  ring

theorem Sphere.acceptRec_t (s : Sphere) (ray : Ray) (rec : HitRecord) (root : ℝ) :
    (s.acceptRec ray rec root).t = root := by
  simp only [Sphere.acceptRec, HitRecord.set_face_normal]
  split_ifs <;> rfl

theorem Sphere.acceptRec_p (s : Sphere) (ray : Ray) (rec : HitRecord) (root : ℝ) :
    (s.acceptRec ray rec root).p = ray.at root := by
  simp only [Sphere.acceptRec, HitRecord.set_face_normal]
  split_ifs <;> rfl

theorem Sphere.acceptRec_normal (s : Sphere) (ray : Ray) (rec : HitRecord) (root : ℝ) :
    (s.acceptRec ray rec root).normal = (ray.at root - s.center) / s.radius
    ∨ (s.acceptRec ray rec root).normal = -((ray.at root - s.center) / s.radius) := by
  simp only [Sphere.acceptRec, HitRecord.set_face_normal]
  split_ifs
  · exact Or.inl rfl
  · exact Or.inr rfl

theorem Sphere.acceptRec_rec_indep (s : Sphere) (ray : Ray) (rec rec0 : HitRecord)
    (root : ℝ) : s.acceptRec ray rec root = s.acceptRec ray rec0 root := by
  simp only [Sphere.acceptRec, HitRecord.set_face_normal]

theorem sphere_hit_cases (s : Sphere) (ray : Ray) (i : Interval) (rec : HitRecord)
    (h : (s.hit ray i rec).1 = true) :
    0 ≤ s.discriminant ray
    ∧ ((i.surrounds (s.root1 ray)
          ∧ s.hit ray i rec = (true, s.acceptRec ray rec (s.root1 ray)))
      ∨ (¬ i.surrounds (s.root1 ray) ∧ i.surrounds (s.root2 ray)
          ∧ s.hit ray i rec = (true, s.acceptRec ray rec (s.root2 ray)))) := by
  by_cases h1 : s.discriminant ray < 0
  · exfalso
    unfold Sphere.hit at h
    rw [if_pos h1] at h
    simp at h
  · by_cases h2 : i.surrounds (s.root1 ray)
    · refine ⟨not_lt.1 h1, Or.inl ⟨h2, ?_⟩⟩
      unfold Sphere.hit
      rw [if_neg h1, if_pos h2]
    · by_cases h3 : i.surrounds (s.root2 ray)
      · refine ⟨not_lt.1 h1, Or.inr ⟨h2, h3, ?_⟩⟩
        unfold Sphere.hit
        rw [if_neg h1, if_neg h2, if_pos h3]
      · exfalso
        unfold Sphere.hit at h
        rw [if_neg h1, if_neg h2, if_neg h3] at h
        simp at h

/-- C2: Sphere::hit reports no intersection when the discriminant h*h - a*c is
negative; otherwise it accepts the smaller root (h - sqrt(d))/a when the query
interval strictly surrounds it, else the larger root (h + sqrt(d))/a under the
same strict test, else reports no intersection. -/
theorem sphere_hit_root_selection (s : Sphere) (ray : Ray) (i : Interval)
    (rec : HitRecord) (hd : ray.direction ≠ 0) :
    (s.discriminant ray < 0 → s.hit ray i rec = (false, rec))
    ∧ (0 ≤ s.discriminant ray →
        s.root1 ray ≤ s.root2 ray
        ∧ (i.surrounds (s.root1 ray) →
            s.hit ray i rec = (true, s.acceptRec ray rec (s.root1 ray)))
        ∧ (¬ i.surrounds (s.root1 ray) → i.surrounds (s.root2 ray) →
            s.hit ray i rec = (true, s.acceptRec ray rec (s.root2 ray)))
        ∧ (¬ i.surrounds (s.root1 ray) → ¬ i.surrounds (s.root2 ray) →
            s.hit ray i rec = (false, rec))) := by
  constructor
  · intro hneg
    unfold Sphere.hit
    rw [if_pos hneg]
  · intro hpos
    refine ⟨s.root1_le_root2 ray hd, ?_, ?_, ?_⟩
    · intro h1
      unfold Sphere.hit
      rw [if_neg (not_lt.2 hpos), if_pos h1]
    · intro h1 h2
      unfold Sphere.hit
      rw [if_neg (not_lt.2 hpos), if_neg h1, if_pos h2]
    · intro h1 h2
      unfold Sphere.hit
      rw [if_neg (not_lt.2 hpos), if_neg h1, if_neg h2]

theorem rayStraight_dir_ne : rayStraight.direction ≠ 0 := by
  intro h
  have h2 := congrArg Vec3.z h
  simp only [Vec3.zero_def] at h2
  norm_num [rayStraight] at h2

theorem rayUp_dir_ne : rayUp.direction ≠ 0 := by
  intro h
  have h2 := congrArg Vec3.y h
  simp only [Vec3.zero_def] at h2
  norm_num [rayUp] at h2

/-- Witness for C2 on a concrete sphere and ray. -/
theorem sphere_hit_root_selection_witness :
    rayStraight.direction ≠ 0
    ∧ ((sphereUpper.discriminant rayStraight < 0 →
          sphereUpper.hit rayStraight ival0T HitRecord.init = (false, HitRecord.init))
      ∧ (0 ≤ sphereUpper.discriminant rayStraight →
          sphereUpper.root1 rayStraight ≤ sphereUpper.root2 rayStraight
          ∧ (ival0T.surrounds (sphereUpper.root1 rayStraight) →
              sphereUpper.hit rayStraight ival0T HitRecord.init
                = (true, sphereUpper.acceptRec rayStraight HitRecord.init
                    (sphereUpper.root1 rayStraight)))
          ∧ (¬ ival0T.surrounds (sphereUpper.root1 rayStraight) →
              ival0T.surrounds (sphereUpper.root2 rayStraight) →
              sphereUpper.hit rayStraight ival0T HitRecord.init
                = (true, sphereUpper.acceptRec rayStraight HitRecord.init
                    (sphereUpper.root2 rayStraight)))
          ∧ (¬ ival0T.surrounds (sphereUpper.root1 rayStraight) →
              ¬ ival0T.surrounds (sphereUpper.root2 rayStraight) →
              sphereUpper.hit rayStraight ival0T HitRecord.init
                = (false, HitRecord.init)))) :=
  ⟨rayStraight_dir_ne,
    sphere_hit_root_selection sphereUpper rayStraight ival0T HitRecord.init
      rayStraight_dir_ne⟩

/-- C3: when Sphere::hit returns a record, the hit point is at distance radius
from the center (exactly, in the real-number model), the stored normal has
unit length, and the accepted t lies strictly inside the queried interval. -/
theorem sphere_hit_record_valid (s : Sphere) (ray : Ray) (i : Interval)
    (rec : HitRecord) (hd : ray.direction ≠ 0) (hr : 0 < s.radius)
    (hh : (s.hit ray i rec).1 = true) :
    ((s.hit ray i rec).2.p - s.center).length = s.radius
    ∧ ((s.hit ray i rec).2.normal).length = 1
    ∧ i.surrounds ((s.hit ray i rec).2.t) := by
  obtain ⟨hdisc, hc⟩ := sphere_hit_cases s ray i rec hh
  have main : ∀ r : ℝ, (r = s.root1 ray ∨ r = s.root2 ray) → i.surrounds r →
      ((s.acceptRec ray rec r).p - s.center).length = s.radius
      ∧ ((s.acceptRec ray rec r).normal).length = 1
      ∧ i.surrounds ((s.acceptRec ray rec r).t) := by
    intro r hror hsur
    have hroot := Sphere.root_eq s ray hd hdisc hror
    have hocls : (s.oc ray).length_squared = s.qc ray + s.radius * s.radius := by
      unfold Sphere.qc
      ring
    have hdist_sq : ((ray.at r) - s.center).length_squared = s.radius * s.radius := by
      rw [at_sub_center_sq, hocls]
      linarith
    have hdist : ((ray.at r) - s.center).length = s.radius := by
      rw [Vec3.length, hdist_sq]
      exact Real.sqrt_mul_self hr.le
    have houtls : (((ray.at r) - s.center) / s.radius).length_squared = 1 := by
      rw [Vec3.length_squared_div, hdist_sq]
      field_simp
    refine ⟨?_, ?_, ?_⟩
    · rw [Sphere.acceptRec_p]
      exact hdist
    · rcases Sphere.acceptRec_normal s ray rec r with hn | hn <;> rw [hn]
      · rw [Vec3.length, houtls, Real.sqrt_one]
      · rw [Vec3.length, Vec3.length_squared_neg, houtls, Real.sqrt_one]
    · rw [Sphere.acceptRec_t]
      exact hsur
  rcases hc with ⟨hs1, he⟩ | ⟨_, hs2, he⟩
  · rw [he]
    exact main _ (Or.inl rfl) hs1
  · rw [he]
    exact main _ (Or.inr rfl) hs2

theorem sphereUpper_hit :
    sphereUpper.hit rayStraight ival0T HitRecord.init = (true, recUpper) := by
  have hdisc : sphereUpper.discriminant rayStraight = 0 := by
    norm_num [Sphere.discriminant, Sphere.qa, Sphere.qh, Sphere.qc, Sphere.oc, dot,
      Vec3.length_squared, sphereUpper, rayStraight]
  have hsqrtd : sphereUpper.sqrtd rayStraight = 0 := by
    rw [Sphere.sqrtd, hdisc, Real.sqrt_zero]
  have hroot1 : sphereUpper.root1 rayStraight = 1 := by
    rw [Sphere.root1, hsqrtd]
    norm_num [Sphere.qa, Sphere.qh, Sphere.oc, dot, Vec3.length_squared, sphereUpper,
      rayStraight]
  have hsur : ival0T.surrounds (sphereUpper.root1 rayStraight) := by
    rw [hroot1]
    exact Interval.surrounds_coe_top.2 (by norm_num)
  have haccept : sphereUpper.acceptRec rayStraight HitRecord.init 1 = recUpper := by
    have hcond : ¬ (dot rayStraight.direction
        ((rayStraight.at 1 - sphereUpper.center) / sphereUpper.radius) < 0) := by
      norm_num [dot, Ray.at, rayStraight, sphereUpper]
    unfold Sphere.acceptRec HitRecord.set_face_normal
    rw [if_neg hcond]
    simp [Ray.at, rayStraight, sphereUpper, HitRecord.init, recUpper]
  unfold Sphere.hit
  rw [if_neg (by rw [hdisc]; norm_num), if_pos hsur, hroot1, haccept]

/-- Witness for C3 on the tangential hit of sphereUpper by the straight ray. -/
theorem sphere_hit_record_valid_witness :
    rayStraight.direction ≠ 0 ∧ 0 < sphereUpper.radius
    ∧ (sphereUpper.hit rayStraight ival0T HitRecord.init).1 = true
    ∧ (((sphereUpper.hit rayStraight ival0T HitRecord.init).2.p
          - sphereUpper.center).length = sphereUpper.radius
      ∧ ((sphereUpper.hit rayStraight ival0T HitRecord.init).2.normal).length = 1
      ∧ ival0T.surrounds ((sphereUpper.hit rayStraight ival0T HitRecord.init).2.t)) := by
  have hh : (sphereUpper.hit rayStraight ival0T HitRecord.init).1 = true := by
    rw [sphereUpper_hit]
  have hr : 0 < sphereUpper.radius := by norm_num [sphereUpper]
  exact ⟨rayStraight_dir_ne, hr, hh,
    sphere_hit_record_valid sphereUpper rayStraight ival0T HitRecord.init
      rayStraight_dir_ne hr hh⟩

/-- C5: ray_color queries the scene over the interval (0, infinity), whose
strict surrounds test excludes a hit exactly at t = 0; on a hit it returns
0.5 * (record.normal + (1,1,1)); on a miss it returns the blend
(1-a)*(1,1,1) + a*(0.5,0.7,1.0) with a = 0.5 * (unit_direction.y + 1) from the
normalized ray direction. -/
theorem ray_color_spec (world : World) (ray : Ray) (hd : ray.direction ≠ 0) :
    (∀ rec : HitRecord,
        world ray ⟨((0 : ℝ) : EReal), infinity⟩ HitRecord.init = (true, rec) →
        Camera.ray_color world ray = (0.5 : ℝ) * (rec.normal + (⟨1, 1, 1⟩ : Vec3)))
    ∧ ((world ray ⟨((0 : ℝ) : EReal), infinity⟩ HitRecord.init).1 = false →
        Camera.ray_color world ray
          = (1.0 - 0.5 * ((unit_vector ray.direction).y + 1.0)) * (⟨1.0, 1.0, 1.0⟩ : Vec3)
            + (0.5 * ((unit_vector ray.direction).y + 1.0)) * (⟨0.5, 0.7, 1.0⟩ : Vec3))
    ∧ (∀ t : ℝ, (Interval.mk ((0 : ℝ) : EReal) infinity).surrounds t ↔ 0 < t) := by
  refine ⟨?_, ?_, ?_⟩
  · intro rec h
    simp only [EReal.coe_zero] at h
    simp [Camera.ray_color, h]
  · intro h
    simp only [EReal.coe_zero] at h
    simp [Camera.ray_color, h]
  · intro t
    simp [Interval.surrounds, infinity, EReal.coe_lt_coe_iff, EReal.coe_lt_top]

/-- C7: the render output is exactly the header line P3, then the line
image_width space image_height, then the line 255, then one line per pixel in
scanline order (rows top to bottom as the outer loop, columns left to right as
the inner loop), each pixel line being three space-separated decimal byte
values in [0, 255]. -/
theorem camera_render_format (cfg : Camera) (world : World) (rng : Rng) :
    cfg.renderLines world rng
      = "P3" :: (toString cfg.image_width ++ " " ++ toString cfg.image_height) :: "255" ::
        (List.range cfg.image_height.toNat).flatMap
          (fun row => (List.range cfg.image_width.toNat).map
            (fun col => cfg.renderPixelLine world rng row col))
    ∧ (cfg.renderLines world rng).length
        = 3 + cfg.image_height.toNat * cfg.image_width.toNat
    ∧ ∀ row col : ℕ, ∃ r g b : ℤ,
        cfg.renderPixelLine world rng row col
          = toString r ++ " " ++ toString g ++ " " ++ toString b
        ∧ 0 ≤ r ∧ r ≤ 255 ∧ 0 ≤ g ∧ g ≤ 255 ∧ 0 ≤ b ∧ b ≤ 255 := by
  refine ⟨rfl, ?_, ?_⟩
  · simp [Camera.renderLines, List.length_flatMap, List.map_map, Function.comp_def,
      List.length_map, List.length_range, List.map_const', List.sum_replicate, smul_eq_mul]
    omega
  · intro row col
    refine ⟨byteOf ((cfg.pixel_color_sum world rng row col * cfg.pixel_samples_scale).x),
      byteOf ((cfg.pixel_color_sum world rng row col * cfg.pixel_samples_scale).y),
      byteOf ((cfg.pixel_color_sum world rng row col * cfg.pixel_samples_scale).z),
      rfl, (byteOf_range _).1, (byteOf_range _).2, (byteOf_range _).1, (byteOf_range _).2,
      (byteOf_range _).1, (byteOf_range _).2⟩

theorem renderPixelLine_of_nonpos (cfg : Camera) (world : World) (rng : Rng)
    (row col : ℕ) (hle : cfg.samples_per_pixel ≤ 0) :
    cfg.renderPixelLine world rng row col
      = write_color ((⟨0, 0, 0⟩ : Vec3) * cfg.pixel_samples_scale) := by
  unfold Camera.renderPixelLine Camera.pixel_color_sum
  rw [Int.toNat_of_nonpos hle]
  rfl

/-- C9 amended: the default samples_per_pixel is 10, but the camera performs no
validation: a configuration value below 1 is neither rejected nor treated as 1;
the sample loop simply runs zero times and the emitted pixel line is
write_color of the zero color scaled by pixel_samples_scale = 1/samples. -/
theorem samples_per_pixel_no_validation :
    Camera.defaultConfig.samples_per_pixel = 10
    ∧ ∀ (cfg : Camera) (world : World) (rng : Rng) (row col : ℕ),
        cfg.samples_per_pixel ≤ 0 →
        cfg.renderPixelLine world rng row col
          = write_color ((⟨0, 0, 0⟩ : Vec3) * cfg.pixel_samples_scale) :=
  ⟨rfl, fun cfg world rng row col hle =>
    renderPixelLine_of_nonpos cfg world rng row col hle⟩

/-- Witness for the amended C9 at samples_per_pixel = -1. -/
theorem samples_per_pixel_no_validation_witness :
    Camera.defaultConfig.samples_per_pixel = 10
    ∧ cfgNegSamples.samples_per_pixel ≤ 0
    ∧ cfgNegSamples.renderPixelLine worldNone rngHalf 0 0
        = write_color ((⟨0, 0, 0⟩ : Vec3) * cfgNegSamples.pixel_samples_scale) :=
  ⟨samples_per_pixel_no_validation.1, by norm_num [cfgNegSamples],
    samples_per_pixel_no_validation.2 cfgNegSamples worldNone rngHalf 0 0
      (by norm_num [cfgNegSamples])⟩

theorem byteOf_zero : byteOf 0 = 0 := by
  rw [byteOf, colorInterval_clamp_eq]
  norm_num [truncInt]

theorem lineNeg : cfgNegSamples.renderPixelLine worldNone rngHalf 0 0 = "0 0 0" := by
  rw [renderPixelLine_of_nonpos _ _ _ _ _ (by norm_num [cfgNegSamples])]
  have hv : ((⟨0, 0, 0⟩ : Vec3) * cfgNegSamples.pixel_samples_scale) = (⟨0, 0, 0⟩ : Vec3) := by
    simp
  rw [hv]
  show toString (byteOf (0 : ℝ)) ++ " " ++ toString (byteOf (0 : ℝ))
      ++ " " ++ toString (byteOf (0 : ℝ)) = "0 0 0"
  rw [byteOf_zero]
  rfl

theorem cfgNeg_height : cfgNegSamples.image_height = 1 := by
  have h : truncInt ((cfgNegSamples.image_width : ℝ) / cfgNegSamples.aspect_ratio) = 1 := by
    norm_num [cfgNegSamples, truncInt]
  simp [Camera.image_height, h]

theorem cfgOne_height : cfgOneSample.image_height = 1 := by
  have h : truncInt ((cfgOneSample.image_width : ℝ) / cfgOneSample.aspect_ratio) = 1 := by
    norm_num [cfgOneSample, truncInt]
  simp [Camera.image_height, h]

theorem cfgOne_pixel00 : cfgOneSample.pixel00_loc = ⟨0, 0, -1⟩ := by
  have hvw : cfgOneSample.viewport_width = 2 := by
    rw [Camera.viewport_width, cfgOne_height]
    norm_num [cfgOneSample]
  have hvu : cfgOneSample.viewport_u = ⟨2, 0, 0⟩ := by
    rw [Camera.viewport_u, hvw]
  have hdu : cfgOneSample.pixel_delta_u = ⟨2, 0, 0⟩ := by
    rw [Camera.pixel_delta_u, hvu]
    norm_num [cfgOneSample]
  have hdv : cfgOneSample.pixel_delta_v = ⟨0, -2, 0⟩ := by
    rw [Camera.pixel_delta_v, cfgOne_height]
    norm_num [Camera.viewport_v]
  have hul : cfgOneSample.viewport_upper_left = ⟨-1, 1, -1⟩ := by
    rw [Camera.viewport_upper_left, hvu]
    norm_num [Camera.center, Camera.viewport_v]
  rw [Camera.pixel00_loc, hul, hdu, hdv]
  norm_num

theorem cfgOne_ray : cfgOneSample.get_ray 0 0 (rngHalf 0 0 0) = ⟨⟨0, 0, 0⟩, ⟨0, 0, -1⟩⟩ := by
  simp only [Camera.get_ray, Camera.sample_square, rngHalf]
  rw [cfgOne_pixel00]
  have hdu : cfgOneSample.pixel_delta_u = ⟨2, 0, 0⟩ := by
    rw [Camera.pixel_delta_u, Camera.viewport_u, Camera.viewport_width, cfgOne_height]
    norm_num [cfgOneSample]
  have hdv : cfgOneSample.pixel_delta_v = ⟨0, -2, 0⟩ := by
    rw [Camera.pixel_delta_v, cfgOne_height]
    norm_num [Camera.viewport_v]
  rw [hdu, hdv]
  norm_num [Camera.center, Ray.mk.injEq]

theorem negz_unit : unit_vector (⟨0, 0, -1⟩ : Vec3) = ⟨0, 0, -1⟩ := by
  have hlen : (⟨0, 0, -1⟩ : Vec3).length = 1 := by
    rw [Vec3.length, Vec3.length_squared]
    norm_num
  rw [unit_vector, hlen]
  norm_num

theorem cfgOne_color :
    Camera.ray_color worldNone (⟨⟨0, 0, 0⟩, ⟨0, 0, -1⟩⟩ : Ray) = ⟨0.75, 0.85, 1.0⟩ := by
  simp only [Camera.ray_color, worldNone]
  norm_num [negz_unit]

theorem cfgOne_sum :
    cfgOneSample.pixel_color_sum worldNone rngHalf 0 0 = ⟨0.75, 0.85, 1.0⟩ := by
  show (⟨0, 0, 0⟩ : Vec3)
      + Camera.ray_color worldNone (cfgOneSample.get_ray 0 0 (rngHalf 0 0 0))
    = ⟨0.75, 0.85, 1.0⟩
  rw [cfgOne_ray, cfgOne_color]
  norm_num

theorem lineOne : cfgOneSample.renderPixelLine worldNone rngHalf 0 0 = "192 217 255" := by
  rw [Camera.renderPixelLine, cfgOne_sum]
  have hscale : cfgOneSample.pixel_samples_scale = 1 := by
    norm_num [Camera.pixel_samples_scale, cfgOneSample]
  have hv : ((⟨0.75, 0.85, 1.0⟩ : Vec3) * cfgOneSample.pixel_samples_scale)
      = (⟨0.75, 0.85, 1.0⟩ : Vec3) := by
    rw [hscale]
    norm_num
  rw [hv]
  have hb1 : byteOf 0.75 = 192 := by
    rw [byteOf, colorInterval_clamp_eq]
    norm_num [truncInt]
  have hb2 : byteOf 0.85 = 217 := by
    rw [byteOf, colorInterval_clamp_eq]
    norm_num [truncInt]
  have hb3 : byteOf 1.0 = 255 := by
    rw [byteOf, colorInterval_clamp_eq]
    norm_num [truncInt]
  show toString (byteOf (0.75 : ℝ)) ++ " " ++ toString (byteOf (0.85 : ℝ))
      ++ " " ++ toString (byteOf (1.0 : ℝ)) = "192 217 255"
  rw [hb1, hb2, hb3]
  rfl

theorem renderNeg :
    cfgNegSamples.renderLines worldNone rngHalf = ["P3", "1 1", "255", "0 0 0"] := by
  rw [Camera.renderLines, cfgNeg_height]
  rw [show cfgNegSamples.image_width = (1 : ℤ) from rfl]
  rw [show ((1 : ℤ)).toNat = 1 from rfl, show List.range 1 = [0] from rfl]
  simp only [List.flatMap_cons, List.flatMap_nil, List.map_cons, List.map_nil,
    List.append_nil]
  rw [lineNeg]
  rfl

theorem renderOne :
    cfgOneSample.renderLines worldNone rngHalf = ["P3", "1 1", "255", "192 217 255"] := by
  rw [Camera.renderLines, cfgOne_height]
  rw [show cfgOneSample.image_width = (1 : ℤ) from rfl]
  rw [show ((1 : ℤ)).toNat = 1 from rfl, show List.range 1 = [0] from rfl]
  simp only [List.flatMap_cons, List.flatMap_nil, List.map_cons, List.map_nil,
    List.append_nil]
  rw [lineOne]
  rfl

/-- C9 counterexample: a samples_per_pixel of -1 (a value below 1) is not
treated as 1: the 1x1 render with samples_per_pixel = -1 differs from the same
render with samples_per_pixel = 1 (and the camera has no rejection path: render
always produces output). -/
theorem samples_nonpos_not_treated_as_one :
    cfgNegSamples.renderLines worldNone rngHalf
      ≠ cfgOneSample.renderLines worldNone rngHalf := by
  rw [renderNeg, renderOne]
  decide

theorem sphere_hit_t_surrounds (s : Sphere) (ray : Ray) (i : Interval) (rec : HitRecord)
    (h : (s.hit ray i rec).1 = true) : i.surrounds ((s.hit ray i rec).2.t) := by
  obtain ⟨_, hc⟩ := sphere_hit_cases s ray i rec h
  rcases hc with ⟨hs, he⟩ | ⟨_, hs, he⟩ <;> rw [he] <;>
    simpa [Sphere.acceptRec_t] using hs

theorem sphere_hit_rec_indep (s : Sphere) (ray : Ray) (i : Interval)
    (rec rec0 : HitRecord) :
    (s.hit ray i rec).1 = (s.hit ray i rec0).1
    ∧ ((s.hit ray i rec).1 = true → (s.hit ray i rec).2 = (s.hit ray i rec0).2) := by
  unfold Sphere.hit
  split_ifs <;>
    exact ⟨rfl, fun hh => by
      first
      | exact Sphere.acceptRec_rec_indep _ _ _ _ _
      | simp at hh⟩

theorem sphere_hit_narrow_up (s : Sphere) (ray : Ray) (hd : ray.direction ≠ 0)
    (lo m M : EReal) (hm : m ≤ M) (rec : HitRecord)
    (h : (s.hit ray ⟨lo, m⟩ rec).1 = true) :
    s.hit ray ⟨lo, M⟩ rec = s.hit ray ⟨lo, m⟩ rec := by
  obtain ⟨hdisc, hc⟩ := sphere_hit_cases s ray ⟨lo, m⟩ rec h
  rcases hc with ⟨hs1, he⟩ | ⟨hn1, hs2, he⟩
  · have hs1b : (Interval.mk lo M).surrounds (s.root1 ray) :=
      ⟨hs1.1, lt_of_lt_of_le hs1.2 hm⟩
    rw [he]
    unfold Sphere.hit
    rw [if_neg (not_lt.2 hdisc), if_pos hs1b]
  · have hs2b : (Interval.mk lo M).surrounds (s.root2 ray) :=
      ⟨hs2.1, lt_of_lt_of_le hs2.2 hm⟩
    have hn1b : ¬ (Interval.mk lo M).surrounds (s.root1 ray) := by
      intro hcon
      have hge : m ≤ ((s.root1 ray : ℝ) : EReal) := by
        by_contra hlt
        exact hn1 ⟨hcon.1, not_le.1 hlt⟩
      have hle12 : ((s.root1 ray : ℝ) : EReal) ≤ ((s.root2 ray : ℝ) : EReal) :=
        EReal.coe_le_coe_iff.2 (s.root1_le_root2 ray hd)
      exact absurd (lt_of_le_of_lt (hge.trans hle12) hs2.2) (lt_irrefl m)
    rw [he]
    unfold Sphere.hit
    rw [if_neg (not_lt.2 hdisc), if_neg hn1b, if_pos hs2b]

theorem sphere_hit_narrow_down (s : Sphere) (ray : Ray) (hd : ray.direction ≠ 0)
    (lo m M : EReal) (hm : m ≤ M) (rec : HitRecord)
    (h : (s.hit ray ⟨lo, M⟩ rec).1 = true)
    (ht : (((s.hit ray ⟨lo, M⟩ rec).2.t : ℝ) : EReal) < m) :
    s.hit ray ⟨lo, m⟩ rec = s.hit ray ⟨lo, M⟩ rec := by
  obtain ⟨hdisc, hc⟩ := sphere_hit_cases s ray ⟨lo, M⟩ rec h
  rcases hc with ⟨hs1, he⟩ | ⟨hn1, hs2, he⟩
  · have ht1 : ((s.root1 ray : ℝ) : EReal) < m := by
      rw [he] at ht
      simpa [Sphere.acceptRec_t] using ht
    have hs1n : (Interval.mk lo m).surrounds (s.root1 ray) := ⟨hs1.1, ht1⟩
    rw [he]
    unfold Sphere.hit
    rw [if_neg (not_lt.2 hdisc), if_pos hs1n]
  · have ht2 : ((s.root2 ray : ℝ) : EReal) < m := by
      rw [he] at ht
      simpa [Sphere.acceptRec_t] using ht
    have hn1n : ¬ (Interval.mk lo m).surrounds (s.root1 ray) := by
      intro hcon
      exact hn1 ⟨hcon.1, lt_of_lt_of_le hcon.2 hm⟩
    have hs2n : (Interval.mk lo m).surrounds (s.root2 ray) := ⟨hs2.1, ht2⟩
    rw [he]
    unfold Sphere.hit
    rw [if_neg (not_lt.2 hdisc), if_neg hn1n, if_pos hs2n]

theorem listStep_inv (ray : Ray) (i : Interval) (rec : HitRecord)
    (hd : ray.direction ≠ 0) (l : List Sphere) (st : Bool × EReal × HitRecord)
    (s : Sphere) (hinv : ListInv ray i rec l st) :
    ListInv ray i rec (l ++ [s]) (HittableList.hitState ray i st s) := by
  obtain ⟨hfalse, htrue⟩ := hinv
  by_cases hb : st.1 = true
  · obtain ⟨hcl, hle, ⟨s0, hs0mem, hs0hit, hs0rec⟩, hmin⟩ := htrue hb
    by_cases hq : (s.hit ray ⟨i.min, st.2.1⟩ st.2.2).1 = true
    · have hstep : HittableList.hitState ray i st s
          = (true, (((s.hit ray ⟨i.min, st.2.1⟩ st.2.2).2.t : ℝ) : EReal),
              (s.hit ray ⟨i.min, st.2.1⟩ st.2.2).2) := by
        simp only [HittableList.hitState]
        rw [if_pos hq]
      have hts := sphere_hit_t_surrounds s ray ⟨i.min, st.2.1⟩ st.2.2 hq
      have hbig : s.hit ray i st.2.2 = s.hit ray ⟨i.min, st.2.1⟩ st.2.2 :=
        sphere_hit_narrow_up s ray hd i.min st.2.1 i.max hle st.2.2 hq
      have hind := sphere_hit_rec_indep s ray i rec st.2.2
      have hhit1 : (s.hit ray i rec).1 = true := by
        rw [hind.1, hbig]
        exact hq
      have hrec1 : (s.hit ray i rec).2 = (s.hit ray ⟨i.min, st.2.1⟩ st.2.2).2 := by
        rw [hind.2 hhit1, hbig]
      constructor
      · intro hcon
        rw [hstep] at hcon
        simp at hcon
      · intro _
        rw [hstep]
        refine ⟨rfl, le_of_lt (lt_of_lt_of_le hts.2 hle),
          ⟨s, by simp, hhit1, hrec1.symm⟩, ?_⟩
        intro s2 hs2mem hs2hit
        rcases List.mem_append.1 hs2mem with hmem | hmem
        · have h1 : (s.hit ray ⟨i.min, st.2.1⟩ st.2.2).2.t < st.2.2.t :=
            EReal.coe_lt_coe_iff.1 (lt_of_lt_of_eq hts.2 hcl)
          exact le_of_lt (lt_of_lt_of_le h1 (hmin s2 hmem hs2hit))
        · simp at hmem
          exact le_of_eq (by rw [hmem, hrec1])
    · have hstep : HittableList.hitState ray i st s = st := by
        simp only [HittableList.hitState]
        rw [if_neg hq]
      rw [hstep]
      constructor
      · intro hcon
        simp [hb] at hcon
      · intro _
        refine ⟨hcl, hle, ⟨s0, by simp [hs0mem], hs0hit, hs0rec⟩, ?_⟩
        intro s2 hs2mem hs2hit
        rcases List.mem_append.1 hs2mem with hmem | hmem
        · exact hmin s2 hmem hs2hit
        · simp at hmem
          by_contra hlt
          push_neg at hlt
          rw [hmem] at hs2hit hlt
          have htc : (((s.hit ray ⟨i.min, i.max⟩ rec).2.t : ℝ) : EReal) < st.2.1 := by
            rw [hcl]
            exact EReal.coe_lt_coe_iff.2 hlt
          have hdn := sphere_hit_narrow_down s ray hd i.min st.2.1 i.max hle rec
            hs2hit htc
          have hind := sphere_hit_rec_indep s ray ⟨i.min, st.2.1⟩ st.2.2 rec
          apply hq
          rw [hind.1, hdn]
          exact hs2hit
  · have hbf : st.1 = false := by
      cases hsteq : st.1
      · rfl
      · exact absurd hsteq hb
    obtain ⟨hclosest, hrecst, hall⟩ := hfalse hbf
    by_cases hq : (s.hit ray ⟨i.min, st.2.1⟩ st.2.2).1 = true
    · have hq2 : (s.hit ray i rec).1 = true := by
        rw [hclosest, hrecst] at hq
        exact hq
      have hqrec : (s.hit ray ⟨i.min, st.2.1⟩ st.2.2).2 = (s.hit ray i rec).2 := by
        rw [hclosest, hrecst]
      have hstep : HittableList.hitState ray i st s
          = (true, (((s.hit ray ⟨i.min, st.2.1⟩ st.2.2).2.t : ℝ) : EReal),
              (s.hit ray ⟨i.min, st.2.1⟩ st.2.2).2) := by
        simp only [HittableList.hitState]
        rw [if_pos hq]
      rw [hstep]
      constructor
      · intro hcon
        simp at hcon
      · intro _
        have hts := sphere_hit_t_surrounds s ray ⟨i.min, st.2.1⟩ st.2.2 hq
        refine ⟨rfl, ?_, ⟨s, by simp, hq2, hqrec⟩, ?_⟩
        · rw [← hclosest]
          exact le_of_lt hts.2
        · intro s2 hs2mem hs2hit
          rcases List.mem_append.1 hs2mem with hmem | hmem
          · exact absurd hs2hit (by simp [hall s2 hmem])
          · simp at hmem
            exact le_of_eq (by rw [hmem, ← hqrec])
    · have hstep : HittableList.hitState ray i st s = st := by
        simp only [HittableList.hitState]
        rw [if_neg hq]
      rw [hstep]
      constructor
      · intro _
        refine ⟨hclosest, hrecst, ?_⟩
        intro s2 hs2mem
        rcases List.mem_append.1 hs2mem with hmem | hmem
        · exact hall s2 hmem
        · simp at hmem
          rw [hmem]
          rw [hclosest, hrecst] at hq
          cases hres : (s.hit ray i rec).1
          · rfl
          · exact absurd hres hq
      · intro hcon
        exact absurd hcon hb

theorem list_fold_inv (ray : Ray) (i : Interval) (rec : HitRecord)
    (hd : ray.direction ≠ 0) :
    ∀ (objs l : List Sphere) (st : Bool × EReal × HitRecord),
      ListInv ray i rec l st →
      ListInv ray i rec (l ++ objs) (objs.foldl (HittableList.hitState ray i) st) := by
  intro objs
  induction objs with
  | nil =>
      intro l st h
      simpa using h
  | cons s rest ih =>
      intro l st h
      have h1 := listStep_inv ray i rec hd l st s h
      have h2 := ih (l ++ [s]) (HittableList.hitState ray i st s) h1
      rw [List.foldl_cons]
      rw [show l ++ s :: rest = (l ++ [s]) ++ rest by simp]
      exact h2

theorem hittableList_hit_characterization (objects : List Sphere) (ray : Ray)
    (i : Interval) (rec : HitRecord) (hd : ray.direction ≠ 0) :
    ((HittableList.hit ⟨objects⟩ ray i rec).1 = false →
        (HittableList.hit ⟨objects⟩ ray i rec).2 = rec
        ∧ ∀ s ∈ objects, (s.hit ray i rec).1 = false)
    ∧ ((HittableList.hit ⟨objects⟩ ray i rec).1 = true →
        ∃ s ∈ objects, (s.hit ray i rec).1 = true
          ∧ (HittableList.hit ⟨objects⟩ ray i rec).2 = (s.hit ray i rec).2
          ∧ ∀ s2 ∈ objects, (s2.hit ray i rec).1 = true →
              (HittableList.hit ⟨objects⟩ ray i rec).2.t ≤ (s2.hit ray i rec).2.t) := by
  have h0 : ListInv ray i rec [] (false, i.max, rec) :=
    ⟨fun _ => ⟨rfl, rfl, by simp⟩, fun h => by simp at h⟩
  have hinv := list_fold_inv ray i rec hd objects [] (false, i.max, rec) h0
  rw [List.nil_append] at hinv
  obtain ⟨hfalse, htrue⟩ := hinv
  constructor
  · intro hf
    have hf2 : (objects.foldl (HittableList.hitState ray i) (false, i.max, rec)).1
        = false := hf
    obtain ⟨_, hr, hall⟩ := hfalse hf2
    exact ⟨hr, hall⟩
  · intro ht
    have ht2 : (objects.foldl (HittableList.hitState ray i) (false, i.max, rec)).1
        = true := ht
    obtain ⟨_, _, ⟨s, hmem, hs, hr⟩, hmin⟩ := htrue ht2
    exact ⟨s, hmem, hs, hr, fun s2 hm2 hh2 => hmin s2 hm2 hh2⟩

/-- C1 (amended): HittableList::hit (modelled from the spec; the body in src is
a stub) reports a hit iff some member reports a valid hit on the original
interval, leaves the record unchanged when no member hits, and on success
returns the record of a member whose individually reported t is minimal among
all members that hit.  Whether a hit occurs and the reported t do not depend on
insertion order; the full record of an exact tie goes to the earlier member. -/
theorem hittableList_hit_nearest (objects : List Sphere) (ray : Ray) (i : Interval)
    (rec : HitRecord) (hd : ray.direction ≠ 0) :
    ((HittableList.hit ⟨objects⟩ ray i rec).1 = false
        ↔ ∀ s ∈ objects, (s.hit ray i rec).1 = false)
    ∧ ((HittableList.hit ⟨objects⟩ ray i rec).1 = false →
        (HittableList.hit ⟨objects⟩ ray i rec).2 = rec)
    ∧ ((HittableList.hit ⟨objects⟩ ray i rec).1 = true →
        ∃ s ∈ objects, (s.hit ray i rec).1 = true
          ∧ (HittableList.hit ⟨objects⟩ ray i rec).2 = (s.hit ray i rec).2
          ∧ ∀ s2 ∈ objects, (s2.hit ray i rec).1 = true →
              (HittableList.hit ⟨objects⟩ ray i rec).2.t ≤ (s2.hit ray i rec).2.t)
    ∧ ∀ objects2 : List Sphere, objects.Perm objects2 →
        (HittableList.hit ⟨objects2⟩ ray i rec).1
            = (HittableList.hit ⟨objects⟩ ray i rec).1
        ∧ ((HittableList.hit ⟨objects⟩ ray i rec).1 = true →
            (HittableList.hit ⟨objects2⟩ ray i rec).2.t
              = (HittableList.hit ⟨objects⟩ ray i rec).2.t) := by
  have hco := hittableList_hit_characterization objects ray i rec hd
  refine ⟨?_, fun hf => (hco.1 hf).1, fun ht => hco.2 ht, ?_⟩
  · constructor
    · intro hf
      exact (hco.1 hf).2
    · intro hall
      cases hres : (HittableList.hit ⟨objects⟩ ray i rec).1
      · rfl
      · obtain ⟨s, hmem, hs, _⟩ := hco.2 hres
        exact absurd hs (by simp [hall s hmem])
  · intro objects2 hperm
    have hco2 := hittableList_hit_characterization objects2 ray i rec hd
    have hbool : (HittableList.hit ⟨objects2⟩ ray i rec).1
        = (HittableList.hit ⟨objects⟩ ray i rec).1 := by
      cases hres : (HittableList.hit ⟨objects⟩ ray i rec).1
      · have hall := (hco.1 hres).2
        cases hres2 : (HittableList.hit ⟨objects2⟩ ray i rec).1
        · rfl
        · obtain ⟨s, hmem, hs, _⟩ := hco2.2 hres2
          exact absurd hs (by simp [hall s (hperm.mem_iff.2 hmem)])
      · cases hres2 : (HittableList.hit ⟨objects2⟩ ray i rec).1
        · obtain ⟨s, hmem, hs, _⟩ := hco.2 hres
          have hall2 := (hco2.1 hres2).2
          exact absurd hs (by simp [hall2 s (hperm.mem_iff.1 hmem)])
        · rfl
    refine ⟨hbool, ?_⟩
    intro hres
    have hres2 : (HittableList.hit ⟨objects2⟩ ray i rec).1 = true := by
      rw [hbool, hres]
    obtain ⟨s1, hmem1, hs1, hrec1, hmin1⟩ := hco.2 hres
    obtain ⟨s2, hmem2, hs2, hrec2, hmin2⟩ := hco2.2 hres2
    apply le_antisymm
    · rw [hrec1]
      exact hmin2 s1 (hperm.mem_iff.1 hmem1) hs1
    · rw [hrec2]
      exact hmin1 s2 (hperm.mem_iff.2 hmem2) hs2

/-- Witness for the amended C1 on a one-sphere scene. -/
theorem hittableList_hit_nearest_witness :
    rayStraight.direction ≠ 0
    ∧ (((HittableList.hit ⟨[sphereUpper]⟩ rayStraight ival0T HitRecord.init).1 = false
        ↔ ∀ s ∈ [sphereUpper], (s.hit rayStraight ival0T HitRecord.init).1 = false)
      ∧ ((HittableList.hit ⟨[sphereUpper]⟩ rayStraight ival0T HitRecord.init).1 = false →
          (HittableList.hit ⟨[sphereUpper]⟩ rayStraight ival0T HitRecord.init).2
            = HitRecord.init)
      ∧ ((HittableList.hit ⟨[sphereUpper]⟩ rayStraight ival0T HitRecord.init).1 = true →
          ∃ s ∈ [sphereUpper], (s.hit rayStraight ival0T HitRecord.init).1 = true
            ∧ (HittableList.hit ⟨[sphereUpper]⟩ rayStraight ival0T HitRecord.init).2
                = (s.hit rayStraight ival0T HitRecord.init).2
            ∧ ∀ s2 ∈ [sphereUpper], (s2.hit rayStraight ival0T HitRecord.init).1 = true →
                (HittableList.hit ⟨[sphereUpper]⟩ rayStraight ival0T HitRecord.init).2.t
                  ≤ (s2.hit rayStraight ival0T HitRecord.init).2.t)
      ∧ ∀ objects2 : List Sphere, List.Perm [sphereUpper] objects2 →
          (HittableList.hit ⟨objects2⟩ rayStraight ival0T HitRecord.init).1
              = (HittableList.hit ⟨[sphereUpper]⟩ rayStraight ival0T HitRecord.init).1
          ∧ ((HittableList.hit ⟨[sphereUpper]⟩ rayStraight ival0T HitRecord.init).1 = true →
              (HittableList.hit ⟨objects2⟩ rayStraight ival0T HitRecord.init).2.t
                = (HittableList.hit ⟨[sphereUpper]⟩ rayStraight ival0T
                    HitRecord.init).2.t)) :=
  ⟨rayStraight_dir_ne,
    hittableList_hit_nearest [sphereUpper] rayStraight ival0T HitRecord.init
      rayStraight_dir_ne⟩

theorem sphereLower_hit :
    sphereLower.hit rayStraight ival0T HitRecord.init = (true, recLower) := by
  have hdisc : sphereLower.discriminant rayStraight = 0 := by
    norm_num [Sphere.discriminant, Sphere.qa, Sphere.qh, Sphere.qc, Sphere.oc, dot,
      Vec3.length_squared, sphereLower, rayStraight]
  have hsqrtd : sphereLower.sqrtd rayStraight = 0 := by
    rw [Sphere.sqrtd, hdisc, Real.sqrt_zero]
  have hroot1 : sphereLower.root1 rayStraight = 1 := by
    rw [Sphere.root1, hsqrtd]
    norm_num [Sphere.qa, Sphere.qh, Sphere.oc, dot, Vec3.length_squared, sphereLower,
      rayStraight]
  have hsur : ival0T.surrounds (sphereLower.root1 rayStraight) := by
    rw [hroot1]
    exact Interval.surrounds_coe_top.2 (by norm_num)
  have haccept : sphereLower.acceptRec rayStraight HitRecord.init 1 = recLower := by
    have hcond : ¬ (dot rayStraight.direction
        ((rayStraight.at 1 - sphereLower.center) / sphereLower.radius) < 0) := by
      norm_num [dot, Ray.at, rayStraight, sphereLower]
    unfold Sphere.acceptRec HitRecord.set_face_normal
    rw [if_neg hcond]
    simp [Ray.at, rayStraight, sphereLower, HitRecord.init, recLower]
  unfold Sphere.hit
  rw [if_neg (by rw [hdisc]; norm_num), if_pos hsur, hroot1, haccept]

theorem sphereLower_narrowed_miss :
    sphereLower.hit rayStraight ⟨ival0T.min, ((recUpper.t : ℝ) : EReal)⟩ recUpper
      = (false, recUpper) := by
  have hdisc : sphereLower.discriminant rayStraight = 0 := by
    norm_num [Sphere.discriminant, Sphere.qa, Sphere.qh, Sphere.qc, Sphere.oc, dot,
      Vec3.length_squared, sphereLower, rayStraight]
  have hsqrtd : sphereLower.sqrtd rayStraight = 0 := by
    rw [Sphere.sqrtd, hdisc, Real.sqrt_zero]
  have hroot1 : sphereLower.root1 rayStraight = 1 := by
    rw [Sphere.root1, hsqrtd]
    norm_num [Sphere.qa, Sphere.qh, Sphere.oc, dot, Vec3.length_squared, sphereLower,
      rayStraight]
  have hroot2 : sphereLower.root2 rayStraight = 1 := by
    rw [Sphere.root2, hsqrtd]
    norm_num [Sphere.qa, Sphere.qh, Sphere.oc, dot, Vec3.length_squared, sphereLower,
      rayStraight]
  have hnsur : ¬ (Interval.mk ival0T.min ((recUpper.t : ℝ) : EReal)).surrounds 1 := by
    rw [show ival0T.min = ((0 : ℝ) : EReal) from rfl,
      show ((recUpper.t : ℝ) : EReal) = ((1 : ℝ) : EReal) from rfl,
      Interval.surrounds_coe]
    norm_num
  unfold Sphere.hit
  rw [if_neg (by rw [hdisc]; norm_num), hroot1, hroot2, if_neg hnsur, if_neg hnsur]

theorem sphereUpper_narrowed_miss :
    sphereUpper.hit rayStraight ⟨ival0T.min, ((recLower.t : ℝ) : EReal)⟩ recLower
      = (false, recLower) := by
  have hdisc : sphereUpper.discriminant rayStraight = 0 := by
    norm_num [Sphere.discriminant, Sphere.qa, Sphere.qh, Sphere.qc, Sphere.oc, dot,
      Vec3.length_squared, sphereUpper, rayStraight]
  have hsqrtd : sphereUpper.sqrtd rayStraight = 0 := by
    rw [Sphere.sqrtd, hdisc, Real.sqrt_zero]
  have hroot1 : sphereUpper.root1 rayStraight = 1 := by
    rw [Sphere.root1, hsqrtd]
    norm_num [Sphere.qa, Sphere.qh, Sphere.oc, dot, Vec3.length_squared, sphereUpper,
      rayStraight]
  have hroot2 : sphereUpper.root2 rayStraight = 1 := by
    rw [Sphere.root2, hsqrtd]
    norm_num [Sphere.qa, Sphere.qh, Sphere.oc, dot, Vec3.length_squared, sphereUpper,
      rayStraight]
  have hnsur : ¬ (Interval.mk ival0T.min ((recLower.t : ℝ) : EReal)).surrounds 1 := by
    rw [show ival0T.min = ((0 : ℝ) : EReal) from rfl,
      show ((recLower.t : ℝ) : EReal) = ((1 : ℝ) : EReal) from rfl,
      Interval.surrounds_coe]
    norm_num
  unfold Sphere.hit
  rw [if_neg (by rw [hdisc]; norm_num), hroot1, hroot2, if_neg hnsur, if_neg hnsur]

theorem hitListUL :
    HittableList.hit ⟨[sphereUpper, sphereLower]⟩ rayStraight ival0T HitRecord.init
      = (true, recUpper) := by
  have h1 : HittableList.hitState rayStraight ival0T
      (false, ival0T.max, HitRecord.init) sphereUpper
      = (true, ((recUpper.t : ℝ) : EReal), recUpper) := by
    simp only [HittableList.hitState]
    rw [show (⟨ival0T.min, ival0T.max⟩ : Interval) = ival0T from rfl, sphereUpper_hit]
    rfl
  have h2 : HittableList.hitState rayStraight ival0T
      (true, ((recUpper.t : ℝ) : EReal), recUpper) sphereLower
      = (true, ((recUpper.t : ℝ) : EReal), recUpper) := by
    simp only [HittableList.hitState]
    rw [sphereLower_narrowed_miss]
    rfl
  unfold HittableList.hit
  rw [show (⟨[sphereUpper, sphereLower]⟩ : HittableList).objects
      = [sphereUpper, sphereLower] from rfl]
  rw [List.foldl_cons, h1, List.foldl_cons, h2, List.foldl_nil]

theorem hitListLU :
    HittableList.hit ⟨[sphereLower, sphereUpper]⟩ rayStraight ival0T HitRecord.init
      = (true, recLower) := by
  have h1 : HittableList.hitState rayStraight ival0T
      (false, ival0T.max, HitRecord.init) sphereLower
      = (true, ((recLower.t : ℝ) : EReal), recLower) := by
    simp only [HittableList.hitState]
    rw [show (⟨ival0T.min, ival0T.max⟩ : Interval) = ival0T from rfl, sphereLower_hit]
    rfl
  have h2 : HittableList.hitState rayStraight ival0T
      (true, ((recLower.t : ℝ) : EReal), recLower) sphereUpper
      = (true, ((recLower.t : ℝ) : EReal), recLower) := by
    simp only [HittableList.hitState]
    rw [sphereUpper_narrowed_miss]
    rfl
  unfold HittableList.hit
  rw [show (⟨[sphereLower, sphereUpper]⟩ : HittableList).objects
      = [sphereLower, sphereUpper] from rfl]
  rw [List.foldl_cons, h1, List.foldl_cons, h2, List.foldl_nil]

/-- C1 counterexample: two unit spheres tangent to the straight ray at the same
t = 1 produce different stored normals, so swapping their insertion order
changes the returned hit record: the claim that order never changes the result
fails on exact ties. -/
theorem hittableList_hit_order_dependent :
    HittableList.hit ⟨[sphereUpper, sphereLower]⟩ rayStraight ival0T HitRecord.init
      ≠ HittableList.hit ⟨[sphereLower, sphereUpper]⟩ rayStraight ival0T
          HitRecord.init := by
  rw [hitListUL, hitListLU]
  intro hcon
  have h2 := congrArg (fun p => p.2.normal.y) hcon
  norm_num [recUpper, recLower] at h2

/-- Witness for C5 on the upward ray and the empty world. -/
theorem ray_color_spec_witness :
    rayUp.direction ≠ 0
    ∧ ((∀ rec : HitRecord,
        worldNone rayUp ⟨((0 : ℝ) : EReal), infinity⟩ HitRecord.init = (true, rec) →
        Camera.ray_color worldNone rayUp = (0.5 : ℝ) * (rec.normal + (⟨1, 1, 1⟩ : Vec3)))
      ∧ ((worldNone rayUp ⟨((0 : ℝ) : EReal), infinity⟩ HitRecord.init).1 = false →
          Camera.ray_color worldNone rayUp
            = (1.0 - 0.5 * ((unit_vector rayUp.direction).y + 1.0)) * (⟨1.0, 1.0, 1.0⟩ : Vec3)
              + (0.5 * ((unit_vector rayUp.direction).y + 1.0)) * (⟨0.5, 0.7, 1.0⟩ : Vec3))
      ∧ (∀ t : ℝ, (Interval.mk ((0 : ℝ) : EReal) infinity).surrounds t ↔ 0 < t)) :=
  ⟨rayUp_dir_ne, ray_color_spec worldNone rayUp rayUp_dir_ne⟩

end

end RT
